import Mathlib

/-!
Shallow embedding of the todo-app server handlers
(`src/server/src/handlers/*.ts` plus the unnamed handler files) over the
relational schema of `src/server/src/db/schema.ts`.

Modelling conventions:
* Machine values: ids are `Nat` (Postgres `serial`), timestamps are `Int`
  (points in time, only compared with `≤`), strings are `String`.
* The database is a triple of tables, each a list of rows in physical order.
* SQL `ORDER BY key` is modelled as a stable insertion sort by the key
  (one admissible execution: Postgres leaves tie order unspecified, the
  stable sort resolves ties by table order).
* Postgres sorts an enum column by its declared order; the schema declares
  `task_priority` as `['low', 'medium', 'high']`, so priority comparisons go
  through `priorityRank` below.
* Nullable SQL columns are `Option`; a comparison with SQL `NULL` is not
  `TRUE`, so a `WHERE` predicate on a `NULL` column drops the row.
* JavaScript truthiness tests in the handlers (`if (limit)`,
  `if (filter.category_id)`, `if (row.category_id && row.category_name)`,
  `input.name || '...'`) are modelled exactly: `0`, `""` and absent values
  are falsy.
* Handlers that write are `input → DB → (Except String result) × DB`; the
  returned `DB` keeps whatever writes executed before a throw (the handlers
  open no transaction).
-/

namespace TodoApp

/-- `task_status` enum of `schema.ts`. -/
inductive TaskStatus where
  | pending
  | completed
deriving DecidableEq, Repr

/-- `task_priority` enum of `schema.ts`, declared order `['low', 'medium', 'high']`. -/
inductive TaskPriority where
  | low
  | medium
  | high
deriving DecidableEq, Repr

/-- Position of a priority in the enum's declared order: Postgres compares
enum values by this rank, not lexically. -/
def priorityRank : TaskPriority → Nat
  | .low => 0
  | .medium => 1
  | .high => 2

/-- Row of the `categories` table. -/
structure Category where
  id : Nat
  name : String
  color : Option String
  created_at : Int
deriving DecidableEq, Repr

/-- Row of the `tasks` table. -/
structure Task where
  id : Nat
  title : String
  description : Option String
  status : TaskStatus
  due_date : Option Int
  priority : TaskPriority
  created_at : Int
  updated_at : Int
deriving DecidableEq, Repr

/-- Row of the `task_categories` junction table. Its `serial` primary key is
not read by any handler and is omitted. -/
structure TaskCategory where
  task_id : Nat
  category_id : Nat
deriving DecidableEq, Repr

/-- The three tables, each in physical row order. -/
structure DB where
  tasks : List Task
  categories : List Category
  taskCategories : List TaskCategory
deriving DecidableEq, Repr

/-- Well-formedness the store's primary keys enforce: no two rows of a table
share an id. -/
def DB.wf (db : DB) : Prop :=
  (db.tasks.map Task.id).Nodup ∧ (db.categories.map Category.id).Nodup

/-- `taskFilterSchema` of `schema.ts`. -/
structure TaskFilter where
  status : Option TaskStatus := none
  priority : Option TaskPriority := none
  category_id : Option Nat := none
  due_before : Option Int := none
  due_after : Option Int := none
deriving DecidableEq, Repr

/-- `taskSortSchema` of `schema.ts`. -/
inductive TaskSort where
  | due_date_asc
  | due_date_desc
  | priority_asc
  | priority_desc
  | created_at_asc
  | created_at_desc
deriving DecidableEq, Repr

/-- `getTasksInputSchema` of `schema.ts` (defaults applied). -/
structure GetTasksInput where
  filter : TaskFilter := {}
  sort : TaskSort := .created_at_desc
  limit : Option Nat := none
  offset : Nat := 0
deriving DecidableEq, Repr

/-- `taskWithCategoriesSchema` of `schema.ts`. -/
structure TaskWithCategories where
  id : Nat
  title : String
  description : Option String
  status : TaskStatus
  due_date : Option Int
  priority : TaskPriority
  created_at : Int
  updated_at : Int
  categories : List Category
deriving DecidableEq, Repr

/-- `idParamSchema` of `schema.ts`. -/
structure IdParam where
  id : Nat
deriving DecidableEq, Repr

/-! ### The joined row set of `getTasks` / the re-read selects

`tasks LEFT JOIN task_categories ON tasks.id = task_categories.task_id
       LEFT JOIN categories ON task_categories.category_id = categories.id`.
A task with no association rows contributes one row with `NULL` category
fields; a task with association rows contributes one row per association,
carrying the (primary-key) matching category, or `NULL` fields when the
association dangles. -/

structure JoinRow where
  task : Task
  cat : Option Category
deriving DecidableEq, Repr

def joinRows (db : DB) : List JoinRow :=
  db.tasks.flatMap fun t =>
    let assocs := db.taskCategories.filter fun a => a.task_id = t.id
    if assocs.isEmpty then [⟨t, none⟩]
    else assocs.map fun a => ⟨t, db.categories.find? fun c => c.id = a.category_id⟩

/-- The one joined row a task contributes when it has at most one
association row. -/
def singleRow (db : DB) (t : Task) : JoinRow :=
  match db.taskCategories.filter fun a => a.task_id = t.id with
  | [] => ⟨t, none⟩
  | a :: _ => ⟨t, db.categories.find? fun c => c.id = a.category_id⟩

/-- Does `getTasks` push at least one `WHERE` condition?  Mirrors the
truthiness guards in the handler: a `category_id` of `0` is falsy in
JavaScript, so that filter is silently dropped. -/
def hasConditions (f : TaskFilter) : Bool :=
  f.status.isSome || f.priority.isSome ||
    (match f.category_id with
      | some c => c ≠ 0
      | none => false) ||
    f.due_before.isSome || f.due_after.isSome

/-- Conjunction of the pushed `WHERE` conditions, evaluated on a joined row
with SQL `NULL` semantics (a predicate over a `NULL` column is not `TRUE`).
The `category_id` condition is `eq(categoriesTable.id, c)`, i.e. it tests the
join-matched category row. -/
def rowMatches (f : TaskFilter) (r : JoinRow) : Bool :=
  (match f.status with
    | some s => r.task.status = s
    | none => true) &&
  (match f.priority with
    | some p => r.task.priority = p
    | none => true) &&
  (match f.category_id with
    | some c =>
        if c = 0 then true
        else match r.cat with
          | some cat => cat.id = c
          | none => false
    | none => true) &&
  (match f.due_before with
    | some d => match r.task.due_date with
        | some dd => decide (dd ≤ d)
        | none => false
    | none => true) &&
  (match f.due_after with
    | some d => match r.task.due_date with
        | some dd => decide (d ≤ dd)
        | none => false
    | none => true)

/-- `ORDER BY due_date ASC`: Postgres default is `NULLS LAST` for `ASC`. -/
def dueLEAsc : Option Int → Option Int → Prop
  | _, none => True
  | none, some _ => False
  | some a, some b => a ≤ b

instance : DecidableRel dueLEAsc := fun a b => by
  unfold dueLEAsc
  cases a <;> cases b <;> infer_instance

/-- The sort comparator selected by the `switch (sort)` of `get_tasks.ts`,
as a relation on tasks.  `DESC` is the exact reverse of `ASC` (for a nullable
column Postgres pairs `DESC` with `NULLS FIRST` by default, which is the
reverse of `ASC NULLS LAST`). -/
def taskLE : TaskSort → Task → Task → Prop
  | .due_date_asc, a, b => dueLEAsc a.due_date b.due_date
  | .due_date_desc, a, b => dueLEAsc b.due_date a.due_date
  | .priority_asc, a, b => priorityRank a.priority ≤ priorityRank b.priority
  | .priority_desc, a, b => priorityRank b.priority ≤ priorityRank a.priority
  | .created_at_asc, a, b => a.created_at ≤ b.created_at
  | .created_at_desc, a, b => b.created_at ≤ a.created_at

instance (s : TaskSort) : DecidableRel (taskLE s) := fun a b => by
  unfold taskLE
  cases s <;> infer_instance

/-- The comparator lifted to joined rows (the query orders the joined rows
by a column of the `tasks` side). -/
def rowLE (s : TaskSort) (a b : JoinRow) : Prop := taskLE s a.task b.task

instance (s : TaskSort) : DecidableRel (rowLE s) := fun a b => by
  unfold rowLE
  infer_instance

instance (s : TaskSort) : IsTotal JoinRow (rowLE s) := by
  constructor
  intro a b
  cases s <;> simp only [rowLE, taskLE] <;>
    first
      | omega
      | (rcases a.task.due_date with _ | x <;> rcases b.task.due_date with _ | y <;>
          simp [dueLEAsc] <;> omega)

instance (s : TaskSort) : IsTrans JoinRow (rowLE s) := by
  constructor
  intro a b c hab hbc
  revert hab hbc
  cases s <;> simp only [rowLE, taskLE] <;>
    first
      | omega
      | (rcases a.task.due_date with _ | x <;> rcases b.task.due_date with _ | y <;>
          rcases c.task.due_date with _ | z <;> simp [dueLEAsc] <;> omega)

/-! ### In-memory aggregation of `getTasks`

The handler groups the (sorted, paginated) joined rows with an
insertion-ordered `Map` keyed by task id; a category is appended to its
task's list only when `row.category_id && row.category_name` is truthy and
the id is not already present. -/

def initEntry (t : Task) : TaskWithCategories :=
  { id := t.id, title := t.title, description := t.description,
    status := t.status, due_date := t.due_date, priority := t.priority,
    created_at := t.created_at, updated_at := t.updated_at, categories := [] }

def pushCat (e : TaskWithCategories) : Option Category → TaskWithCategories
  | none => e
  | some c =>
      if c.id ≠ 0 ∧ c.name ≠ "" then
        if e.categories.any fun d => d.id = c.id then e
        else { e with categories := e.categories ++ [c] }
      else e

def upsertRow (acc : List TaskWithCategories) (r : JoinRow) : List TaskWithCategories :=
  if acc.any fun e => e.id = r.task.id then
    acc.map fun e => if e.id = r.task.id then pushCat e r.cat else e
  else
    acc ++ [pushCat (initEntry r.task) r.cat]

def aggregate (rows : List JoinRow) : List TaskWithCategories :=
  rows.foldl upsertRow []

/-- The `if (limit)` guard of the handler: the `LIMIT` clause is attached
only for a present, non-zero (truthy) limit. -/
def applyLimit {α : Type} (limit : Option Nat) (xs : List α) : List α :=
  match limit with
  | some l => if l ≠ 0 then xs.take l else xs
  | none => xs

/-- `getTasks` of `src/server/src/handlers/get_tasks.ts`: join, `WHERE` (only
when at least one condition was pushed), `ORDER BY`, `OFFSET`, `LIMIT`,
then in-memory grouping. -/
def getTasks (input : GetTasksInput) (db : DB) : List TaskWithCategories :=
  let rows := joinRows db
  let filtered := if hasConditions input.filter then rows.filter (rowMatches input.filter) else rows
  let sorted := List.insertionSort (rowLE input.sort) filtered
  let paged := applyLimit input.limit (sorted.drop input.offset)
  aggregate paged

/-- `getTaskById` (unnamed handler file, `part_003`): fetch the task row,
then `SELECT c.* FROM categories c INNER JOIN task_categories tc ON
c.id = tc.category_id WHERE tc.task_id = input.id` — one category row per
association row, with no de-duplication. -/
def getTaskById (input : IdParam) (db : DB) : Option TaskWithCategories :=
  match db.tasks.find? (fun t => t.id = input.id) with
  | none => none
  | some t =>
      let cats := (db.taskCategories.filter fun a => a.task_id = input.id).filterMap
        fun a => db.categories.find? fun c => c.id = a.category_id
      some { initEntry t with categories := cats }

/-! ### Mutation handlers -/

/-- `createTaskInputSchema` of `schema.ts` as the handler sees it (the
handler re-applies the `??`-defaults itself, so optional enum fields stay
`Option` here). -/
structure CreateTaskInput where
  title : String
  description : Option String := none
  status : Option TaskStatus := none
  due_date : Option Int := none
  priority : Option TaskPriority := none
  category_ids : Option (List Nat) := none
deriving DecidableEq, Repr

/-- The keep-first de-duplication
`filter((c, i, self) => i === self.findIndex(d => d.id === c.id))`
used by the re-read steps of `createTask` and `updateTask`. -/
def dedupById (cs : List Category) : List Category :=
  cs.foldl (fun acc c => if acc.any fun d => d.id = c.id then acc else acc ++ [c]) []

/-- The re-read select shared by `createTask` and `updateTask`: the same
triple left join restricted to one task id, the first row giving the task
fields, category rows filtered on `category_id !== null` and de-duplicated.
`updateTask` throws when the select comes back empty. -/
def readTaskJoined (tid : Nat) (db : DB) : Except String TaskWithCategories :=
  let rows := (joinRows db).filter fun r => r.task.id = tid
  match rows with
  | [] => .error ("Task with id " ++ toString tid ++ " not found after update")
  | r :: rest =>
      .ok { initEntry r.task with categories := dedupById ((r :: rest).filterMap JoinRow.cat) }

/-- `createTask` (unnamed handler file, `part_001`): when `category_ids` is
present and non-empty, one `inArray` select must return exactly as many
category rows as there are ids; only then the task row, then the
association rows, are inserted, and the task is re-read joined. -/
def createTask (input : CreateTaskInput) (db : DB) (now : Int) (newId : Nat) :
    Except String TaskWithCategories × DB :=
  let cids := input.category_ids.getD []
  if 0 < cids.length ∧
      (db.categories.filter fun c => cids.contains c.id).length ≠ cids.length then
    (.error "One or more category IDs do not exist", db)
  else
    let task : Task :=
      { id := newId, title := input.title, description := input.description,
        status := input.status.getD .pending, due_date := input.due_date,
        priority := input.priority.getD .medium, created_at := now, updated_at := now }
    let db2 : DB :=
      { db with tasks := db.tasks ++ [task],
                taskCategories := db.taskCategories ++ cids.map fun cid => ⟨newId, cid⟩ }
    (readTaskJoined newId db2, db2)

/-- `updateTaskInputSchema` of `schema.ts`: the outer `Option` is
presence in the request, the inner `Option` (for the nullable columns) is
an explicit `null`. -/
structure UpdateTaskInput where
  id : Nat
  title : Option String := none
  description : Option (Option String) := none
  status : Option TaskStatus := none
  due_date : Option (Option Int) := none
  priority : Option TaskPriority := none
  category_ids : Option (List Nat) := none
deriving DecidableEq, Repr

/-- The `updateData` object of `update_task.ts`: `updated_at` is always
set to the current instant; every other column is written only when the
request supplies the field (`!== undefined`), `created_at` never. -/
def applyPatch (input : UpdateTaskInput) (now : Int) (t : Task) : Task :=
  { t with
    title := input.title.getD t.title,
    description := input.description.getD t.description,
    status := input.status.getD t.status,
    due_date := input.due_date.getD t.due_date,
    priority := input.priority.getD t.priority,
    updated_at := now }

/-- The validation loop of `update_task.ts`: when `category_ids` was
supplied non-empty (`!== undefined && length > 0`), the loop selects each id
in turn and throws at the first one that resolves to no category row. -/
def firstMissingCategory (db : DB) (cids : List Nat) : Option Nat :=
  if 0 < cids.length then cids.find? fun cid => !(db.categories.any fun c => c.id = cid)
  else none

/-- `updateTask` of `src/server/src/handlers/update_task.ts`: existence
check, per-id category validation loop (throws at the first id whose select
is empty — all before any write), the partial `UPDATE`, full replacement of
the association rows when `category_ids` was supplied (also as `[]`), and
the joined re-read. -/
def updateTask (input : UpdateTaskInput) (db : DB) (now : Int) :
    Except String TaskWithCategories × DB :=
  match db.tasks.find? (fun t => t.id = input.id) with
  | none => (.error ("Task with id " ++ toString input.id ++ " not found"), db)
  | some _ =>
      match firstMissingCategory db (input.category_ids.getD []) with
      | some missing => (.error ("Category with id " ++ toString missing ++ " not found"), db)
      | none =>
          let db2 : DB :=
            { db with tasks := db.tasks.map fun t =>
                if t.id = input.id then applyPatch input now t else t }
          let db3 : DB :=
            match input.category_ids with
            | none => db2
            | some cidsList =>
                { db2 with taskCategories :=
                    (db2.taskCategories.filter fun a => a.task_id ≠ input.id) ++
                      cidsList.map fun cid => ⟨input.id, cid⟩ }
          (readTaskJoined input.id db3, db3)

/-- Result shape of the delete handlers. -/
structure DeleteResult where
  success : Bool
deriving DecidableEq, Repr

/-- `deleteTask` of `src/server/src/handlers/delete_task.ts` (the
implemented version): `DELETE ... RETURNING`, success iff a row came back;
the store cascades the association rows of a deleted task. -/
def deleteTask (input : IdParam) (db : DB) : DeleteResult × DB :=
  let removed := db.tasks.filter fun tk => tk.id = input.id
  (⟨decide (0 < removed.length)⟩,
    { db with
      tasks := db.tasks.filter fun tk => ¬tk.id = input.id,
      taskCategories :=
        if removed.isEmpty then db.taskCategories
        else db.taskCategories.filter fun a => ¬a.task_id = input.id })

/-- `deleteCategory` of `src/server/src/handlers/delete_category.ts`:
same shape over the `categories` table, cascading by `category_id`. -/
def deleteCategory (input : IdParam) (db : DB) : DeleteResult × DB :=
  let removed := db.categories.filter fun c => c.id = input.id
  (⟨decide (0 < removed.length)⟩,
    { db with
      categories := db.categories.filter fun c => ¬c.id = input.id,
      taskCategories :=
        if removed.isEmpty then db.taskCategories
        else db.taskCategories.filter fun a => ¬a.category_id = input.id })

/-- `updateCategoryInputSchema` of `schema.ts`. -/
structure UpdateCategoryInput where
  id : Nat
  name : Option String := none
  color : Option (Option String) := none
deriving DecidableEq, Repr

/-- `updateCategory` (unnamed handler file, `part_004`). The repository
ships only the placeholder body: it never reads or writes the store and
resolves with a fabricated category — `input.name || 'Updated Category'`
and `input.color || null`, with JavaScript falsiness for `""` — instead of
throwing when the id does not resolve. -/
def updateCategory (input : UpdateCategoryInput) (db : DB) (now : Int) :
    Except String Category × DB :=
  (.ok
    { id := input.id,
      name :=
        match input.name with
        | some n => if n = "" then "Updated Category" else n
        | none => "Updated Category",
      color :=
        match input.color with
        | some (some c) => if c = "" then none else some c
        | _ => none,
      created_at := now }, db)

/-! ### Concrete fixtures for the scenario theorems -/

/-- A plain pending/medium task whose id doubles as its (distinct) creation
instant. -/
def mkTask (i : Nat) : Task :=
  { id := i, title := "Task " ++ toString i, description := none,
    status := .pending, due_date := none, priority := .medium,
    created_at := (i : Nat), updated_at := (i : Nat) }

/-- Five tasks created at distinct times, none with any category. -/
def dbFivePlain : DB :=
  { tasks := [mkTask 1, mkTask 2, mkTask 3, mkTask 4, mkTask 5],
    categories := [], taskCategories := [] }

/-- Five tasks created at distinct times, the first carrying two
categories — the join fan-out case. -/
def dbFanout : DB :=
  { tasks := [mkTask 1, mkTask 2, mkTask 3, mkTask 4, mkTask 5],
    categories := [⟨1, "A", none, 0⟩, ⟨2, "B", none, 0⟩],
    taskCategories := [⟨1, 1⟩, ⟨1, 2⟩] }

/-- `limit=2 / offset=2` over `created_at_asc`. -/
def paginationInput : GetTasksInput :=
  { sort := .created_at_asc, limit := some 2, offset := 2 }

/-- The "Work" category of the specification scenario. -/
def workCat : Category := { id := 1, name := "Work", color := some "#ff0000", created_at := 0 }

/-- A second category attached to the same task. -/
def homeCat : Category := { id := 2, name := "Home", color := none, created_at := 0 }

/-- The "Ship report" task of the specification scenario. -/
def shipTask : Task :=
  { id := 1, title := "Ship report", description := none, status := .pending,
    due_date := none, priority := .medium, created_at := 1, updated_at := 1 }

/-- Scenario store: one task "Ship report" associated to exactly "Work". -/
def dbShip : DB :=
  { tasks := [shipTask], categories := [workCat], taskCategories := [⟨1, 1⟩] }

/-- Store whose only task is associated to both "Work" and "Home". -/
def dbWorkHome : DB :=
  { tasks := [shipTask], categories := [workCat, homeCat],
    taskCategories := [⟨1, 1⟩, ⟨1, 2⟩] }

/-- `getTasks` input filtering on the "Work" category id. -/
def workFilterInput : GetTasksInput := { filter := { category_id := some 1 } }

/-- Store where the association invariant is violated: the one task holds
the same category twice. -/
def dbDupAssoc : DB :=
  { tasks := [mkTask 1], categories := [⟨7, "Dup", none, 0⟩],
    taskCategories := [⟨1, 7⟩, ⟨1, 7⟩] }

/-- An update request touching only `description` (as an explicit value),
omitting `category_ids`. -/
def updDescInput : UpdateTaskInput := { id := 1, description := some (some "d") }

/-- An update request supplying `category_ids` as the empty list. -/
def updEmptyCatsInput : UpdateTaskInput := { id := 1, category_ids := some [] }

/-! ## Lemmas about the aggregation step -/

theorem pushCat_id (e : TaskWithCategories) (c : Option Category) :
    (pushCat e c).id = e.id := by
  cases c with
  | none => rfl
  | some c =>
      simp only [pushCat]
      split
      · split <;> rfl
      · rfl

theorem pushCat_priority (e : TaskWithCategories) (c : Option Category) :
    (pushCat e c).priority = e.priority := by
  cases c with
  | none => rfl
  | some c =>
      simp only [pushCat]
      split
      · split <;> rfl
      · rfl

theorem mem_pushCat {e : TaskWithCategories} {c? : Option Category} {c : Category}
    (h : c ∈ (pushCat e c?).categories) : c ∈ e.categories ∨ c? = some c := by
  cases c? with
  | none => exact .inl h
  | some d =>
      simp only [pushCat] at h
      split at h
      · split at h
        · exact .inl h
        · rcases List.mem_append.mp h with h | h
          · exact .inl h
          · exact .inr (by rw [List.mem_singleton.mp h])
      · exact .inl h

theorem applyLimit_sublist {α : Type} (lim : Option Nat) (xs : List α) :
    (applyLimit lim xs).Sublist xs := by
  cases lim with
  | none => exact List.Sublist.refl xs
  | some l =>
      simp only [applyLimit]
      split
      · exact List.take_sublist l xs
      · exact List.Sublist.refl xs

theorem applyLimit_map {α β : Type} (f : α → β) (lim : Option Nat) (xs : List α) :
    (applyLimit lim xs).map f = applyLimit lim (xs.map f) := by
  cases lim with
  | none => rfl
  | some l =>
      simp only [applyLimit]
      split
      · exact List.map_take f xs l
      · rfl

theorem singleRow_task (db : DB) (t : Task) : (singleRow db t).task = t := by
  unfold singleRow
  split <;> rfl

theorem flatMap_eq_map_of_singleton {α β : Type} {f : α → List β} {g : α → β} :
    ∀ {ts : List α}, (∀ t ∈ ts, f t = [g t]) → ts.flatMap f = ts.map g := by
  intro ts
  induction ts with
  | nil => intro _; rfl
  | cons t ts ih =>
      intro h
      rw [List.flatMap_cons, List.map_cons, h t (List.mem_cons_self t ts),
        ih fun u hu => h u (List.mem_cons_of_mem t hu)]
      rfl

/-- When every task owns at most one association row, the left join
produces exactly one row per task. -/
theorem joinRows_eq_map_singleRow (db : DB)
    (h : ∀ t ∈ db.tasks, (db.taskCategories.filter fun a => a.task_id = t.id).length ≤ 1) :
    joinRows db = db.tasks.map (singleRow db) := by
  unfold joinRows
  apply flatMap_eq_map_of_singleton
  intro t ht
  have hlen := h t ht
  cases hfil : db.taskCategories.filter fun a => a.task_id = t.id with
  | nil => simp [singleRow, hfil]
  | cons a rest =>
      rw [hfil] at hlen
      have hrest : rest = [] := by
        cases rest with
        | nil => rfl
        | cons b bs => simp at hlen
      subst hrest
      simp [singleRow, hfil]

theorem orderedInsert_map_task (s : TaskSort) (r : JoinRow) (l : List JoinRow) :
    (List.orderedInsert (rowLE s) r l).map JoinRow.task =
      List.orderedInsert (taskLE s) r.task (l.map JoinRow.task) := by
  induction l with
  | nil => rfl
  | cons b bs ih =>
      by_cases h : taskLE s r.task b.task
      · have h2 : rowLE s r b := h
        simp only [List.orderedInsert, List.map_cons, if_pos h, if_pos h2]
      · have h2 : ¬rowLE s r b := h
        simp only [List.orderedInsert, List.map_cons, if_neg h, if_neg h2, ih]

/-- Sorting the joined rows by a task column is sorting their task
projections. -/
theorem insertionSort_map_task (s : TaskSort) (l : List JoinRow) :
    (List.insertionSort (rowLE s) l).map JoinRow.task =
      List.insertionSort (taskLE s) (l.map JoinRow.task) := by
  induction l with
  | nil => rfl
  | cons r rs ih =>
      rw [List.insertionSort, List.map_cons, List.insertionSort, orderedInsert_map_task, ih]

/-- Grouping rows whose task ids are fresh and pairwise distinct appends one
entry per row. -/
theorem foldl_upsert_nodup :
    ∀ (rows : List JoinRow) (acc : List TaskWithCategories),
      (∀ e ∈ acc, ∀ r ∈ rows, e.id ≠ r.task.id) →
      ((rows.map fun r => r.task.id).Nodup) →
      rows.foldl upsertRow acc = acc ++ rows.map fun r => pushCat (initEntry r.task) r.cat := by
  intro rows
  induction rows with
  | nil => intro acc _ _; simp
  | cons r rest ih =>
      intro acc hdisj hnd
      rw [List.map_cons, List.nodup_cons] at hnd
      have hany : (acc.any fun e => e.id = r.task.id) = false := by
        rw [List.any_eq_false]
        intro e he
        simpa using hdisj e he r (List.mem_cons_self r rest)
      rw [List.foldl_cons]
      have hup : upsertRow acc r = acc ++ [pushCat (initEntry r.task) r.cat] := by
        unfold upsertRow
        rw [hany]
        simp
      rw [hup, ih (acc ++ [pushCat (initEntry r.task) r.cat])
          (by
            intro e he s hs
            rcases List.mem_append.mp he with he | he
            · exact hdisj e he s (List.mem_cons_of_mem r hs)
            · rw [List.mem_singleton.mp he, pushCat_id]
              show r.task.id ≠ s.task.id
              intro hcontra
              exact hnd.1 (by rw [hcontra]; exact List.mem_map_of_mem (fun r => r.task.id) hs))
          hnd.2]
      simp

/-- The task ids surviving the grouping are exactly the accumulator's ids
together with the rows' task ids. -/
theorem mem_foldl_upsert_ids :
    ∀ (rows : List JoinRow) (acc : List TaskWithCategories) (x : Nat),
      (x ∈ (rows.foldl upsertRow acc).map TaskWithCategories.id ↔
        x ∈ acc.map TaskWithCategories.id ∨ x ∈ rows.map fun r => r.task.id) := by
  intro rows
  induction rows with
  | nil => intro acc x; simp
  | cons r rest ih =>
      intro acc x
      rw [List.foldl_cons, ih]
      by_cases hany : (acc.any fun e => e.id = r.task.id) = true
      · have hin : r.task.id ∈ acc.map TaskWithCategories.id := by
          obtain ⟨e, he, hpe⟩ := List.any_eq_true.mp hany
          exact List.mem_map.mpr ⟨e, he, by simpa using hpe⟩
        have hup : upsertRow acc r =
            acc.map fun e => if e.id = r.task.id then pushCat e r.cat else e := by
          unfold upsertRow
          rw [hany]
          simp
        have hids : (acc.map fun e => if e.id = r.task.id then pushCat e r.cat else e).map
            TaskWithCategories.id = acc.map TaskWithCategories.id := by
          rw [List.map_map]
          apply List.map_congr_left
          intro e _
          by_cases h : e.id = r.task.id <;> simp [h, pushCat_id]
        rw [hup, hids, List.map_cons]
        simp only [List.mem_cons]
        constructor
        · rintro (h | h)
          · exact .inl h
          · exact .inr (.inr h)
        · rintro (h | h | h)
          · exact .inl h
          · exact .inl (by rw [h]; exact hin)
          · exact .inr h
      · have hup : upsertRow acc r = acc ++ [pushCat (initEntry r.task) r.cat] := by
          unfold upsertRow
          rw [Bool.not_eq_true] at hany
          rw [hany]
          simp
        rw [hup, List.map_cons]
        simp only [List.map_append, List.mem_append, List.map_cons, List.map_nil,
          List.mem_singleton, List.mem_cons, pushCat_id, initEntry, List.not_mem_nil]
        tauto

/-- Every category an aggregated entry carries came either from the
accumulator or from some row's joined category. -/
theorem foldl_upsert_cats :
    ∀ (rows : List JoinRow) (acc : List TaskWithCategories) (e : TaskWithCategories)
      (c : Category), e ∈ rows.foldl upsertRow acc → c ∈ e.categories →
      (∃ e0 ∈ acc, c ∈ e0.categories) ∨ ∃ r ∈ rows, r.cat = some c := by
  intro rows
  induction rows with
  | nil =>
      intro acc e c he hc
      exact .inl ⟨e, he, hc⟩
  | cons r rest ih =>
      intro acc e c he hc
      rw [List.foldl_cons] at he
      rcases ih _ e c he hc with ⟨e0, he0, hc0⟩ | ⟨r2, hr2, hcat⟩
      · unfold upsertRow at he0
        split at he0
        · obtain ⟨e1, he1, rfl⟩ := List.mem_map.mp he0
          by_cases h : e1.id = r.task.id
          · rw [if_pos h] at hc0
            rcases mem_pushCat hc0 with h2 | h2
            · exact .inl ⟨e1, he1, h2⟩
            · exact .inr ⟨r, List.mem_cons_self r rest, h2⟩
          · rw [if_neg h] at hc0
            exact .inl ⟨e1, he1, hc0⟩
        · rcases List.mem_append.mp he0 with h | h
          · exact .inl ⟨e0, h, hc0⟩
          · rw [List.mem_singleton.mp h] at hc0
            rcases mem_pushCat hc0 with h2 | h2
            · simp [initEntry] at h2
            · exact .inr ⟨r, List.mem_cons_self r rest, h2⟩
      · exact .inr ⟨r2, List.mem_cons_of_mem r hr2, hcat⟩

/-- Grouping preserves a pairwise priority bound: entry priorities never
change after first sight, and new entries arrive in row order. -/
theorem foldl_upsert_pairwise (P : TaskPriority → TaskPriority → Prop) :
    ∀ (rows : List JoinRow) (acc : List TaskWithCategories),
      acc.Pairwise (fun a b => P a.priority b.priority) →
      (∀ a ∈ acc, ∀ r ∈ rows, P a.priority r.task.priority) →
      rows.Pairwise (fun a b => P a.task.priority b.task.priority) →
      (rows.foldl upsertRow acc).Pairwise fun a b => P a.priority b.priority := by
  intro rows
  induction rows with
  | nil =>
      intro acc hacc _ _
      exact hacc
  | cons r rest ih =>
      intro acc hacc hcross hrows
      rw [List.pairwise_cons] at hrows
      rw [List.foldl_cons]
      apply ih
      · unfold upsertRow
        split
        · exact List.Pairwise.map _
            (fun a b hab => by
              by_cases h1 : a.id = r.task.id <;> by_cases h2 : b.id = r.task.id <;>
                simp [h1, h2, pushCat_priority, hab])
            hacc
        · rw [List.pairwise_append]
          refine ⟨hacc, List.pairwise_singleton _ _, ?_⟩
          intro a ha b hb
          rw [List.mem_singleton.mp hb, pushCat_priority]
          exact hcross a ha r (List.mem_cons_self r rest)
      · intro a ha s hs
        unfold upsertRow at ha
        split at ha
        · obtain ⟨a0, ha0, rfl⟩ := List.mem_map.mp ha
          have hpr : (if a0.id = r.task.id then pushCat a0 r.cat else a0).priority =
              a0.priority := by
            by_cases h : a0.id = r.task.id <;> simp [h, pushCat_priority]
          rw [hpr]
          exact hcross a0 ha0 s (List.mem_cons_of_mem r hs)
        · rcases List.mem_append.mp ha with h | h
          · exact hcross a h s (List.mem_cons_of_mem r hs)
          · rw [List.mem_singleton.mp h, pushCat_priority]
            exact hrows.1 s hs
      · exact hrows.2

/-- The counting argument behind `createTask`'s referential check: with
unique category ids, an unresolved id makes the `inArray` select come back
strictly short. -/
theorem filter_contains_length_lt {cats : List Category} {cids : List Nat} {cid : Nat}
    (hnd : (cats.map Category.id).Nodup) (hmem : cid ∈ cids)
    (habs : cid ∉ cats.map Category.id) :
    (cats.filter fun c => cids.contains c.id).length < cids.length := by
  classical
  have hndS : ((cats.filter fun c => cids.contains c.id).map Category.id).Nodup :=
    hnd.sublist ((cats.filter_sublist).map Category.id)
  have hsubset : ((cats.filter fun c => cids.contains c.id).map Category.id).toFinset ⊆
      (cids.erase cid).toFinset := by
    intro x hx
    rw [List.mem_toFinset] at hx ⊢
    obtain ⟨c, hcmem, rfl⟩ := List.mem_map.mp hx
    obtain ⟨hc, hcontains⟩ := List.mem_filter.mp hcmem
    have hxin : c.id ∈ cids := by simpa [List.elem_iff] using hcontains
    have hne : c.id ≠ cid := fun h =>
      habs (h ▸ List.mem_map_of_mem Category.id hc)
    exact (List.mem_erase_of_ne hne).mpr hxin
  have hlen : (cats.filter fun c => cids.contains c.id).length ≤ cids.length - 1 :=
    calc (cats.filter fun c => cids.contains c.id).length
        = ((cats.filter fun c => cids.contains c.id).map Category.id).length :=
          (List.length_map _ _).symm
      _ = ((cats.filter fun c => cids.contains c.id).map Category.id).toFinset.card :=
          (List.toFinset_card_of_nodup hndS).symm
      _ ≤ (cids.erase cid).toFinset.card := Finset.card_le_card hsubset
      _ ≤ (cids.erase cid).length := List.toFinset_card_le _
      _ = cids.length - 1 := List.length_erase_of_mem hmem
  have hpos : 0 < cids.length := List.length_pos_of_mem hmem
  omega

/-- Looking categories up by primary key along a duplicate-free list of
category ids yields a duplicate-free category list. -/
theorem filterMap_findCat_nodup (cats : List Category) :
    ∀ (l : List TaskCategory), ((l.map TaskCategory.category_id).Nodup) →
      (((l.filterMap fun a => cats.find? fun c => c.id = a.category_id).map
        Category.id).Nodup) := by
  intro l
  induction l with
  | nil => intro _; simp
  | cons a rest ih =>
      intro hnd
      rw [List.map_cons, List.nodup_cons] at hnd
      rw [List.filterMap_cons]
      cases hfind : cats.find? fun c => c.id = a.category_id with
      | none => exact ih hnd.2
      | some c =>
          rw [List.map_cons, List.nodup_cons]
          refine ⟨?_, ih hnd.2⟩
          intro hcmem
          apply hnd.1
          have hc : c.id = a.category_id := by simpa using List.find?_some hfind
          obtain ⟨d, hd, hdid⟩ := List.mem_map.mp hcmem
          obtain ⟨b, hb, hfb⟩ := List.mem_filterMap.mp hd
          have hdb : d.id = b.category_id := by simpa using List.find?_some hfb
          have : a.category_id = b.category_id := by rw [← hc, ← hdb, hdid]
          rw [this]
          exact List.mem_map_of_mem TaskCategory.category_id hb

/-! ## Claim theorems -/

/-- C9 (code bug evidence): the shipped `updateCategory` is the placeholder
body; on an empty store and the unresolved id 99999 it resolves with a
fabricated category instead of failing with a not-found error, contradicting
the repository's own `updateCategory` test, which expects a
"Category with id 99999 not found" rejection. -/
theorem C9_updateCategory_fabricates :
    updateCategory { id := 99999, name := some "Should Fail" } ⟨[], [], []⟩ 0 =
      (.ok { id := 99999, name := "Should Fail", color := none, created_at := 0 },
        (⟨[], [], []⟩ : DB)) := rfl

/-- C1 (counterexample): five tasks created at distinct instants, the first
carrying two categories; `sort=created_at_asc, limit=2, offset=2` returns
tasks 2 and 3, not the 3rd and 4th tasks — the extra category row of task 1
consumed part of the offset budget, because `getTasks` paginates the joined
rows, not distinct tasks. -/
theorem C1_fanout_counterexample :
    (getTasks paginationInput dbFanout).map TaskWithCategories.id = [2, 3] ∧
    (getTasks paginationInput dbFanout).map TaskWithCategories.id ≠ [3, 4] := by
  decide

/-- C2 (counterexample): a task associated to both "Work" and "Home",
filtered by `category_id = Work.id`, comes back carrying only the matched
"Work" category — not its full category list — because the filter prunes
the joined rows the aggregation would have read "Home" from. -/
theorem C2_full_list_counterexample :
    (getTasks workFilterInput dbWorkHome).map TaskWithCategories.categories = [[workCat]] ∧
    (⟨1, 2⟩ : TaskCategory) ∈ dbWorkHome.taskCategories ∧
    homeCat ∈ dbWorkHome.categories ∧ homeCat.id = 2 ∧
    [[workCat]] ≠ [[workCat, homeCat]] := by
  decide

/-- C3 (counterexample): with the same (task, category) pair associated
twice, `getTaskById` returns the category twice — its inner-join read has no
de-duplication step. -/
theorem C3_duplicate_assoc_counterexample :
    (getTaskById ⟨1⟩ dbDupAssoc).map (fun e => e.categories.map Category.id) = some [7, 7] ∧
    ¬(([7, 7] : List Nat).Nodup) := by
  decide

/-- C8: `deleteTask` / `deleteCategory` report `success = true` exactly when
a row with the requested id existed (and was removed); when none exists they
return `success = false` without error — both are total functions here — and
leave every table unchanged. -/
theorem C8_delete_success_iff (id : Nat) (db : DB) :
    ((deleteTask ⟨id⟩ db).1.success = true ↔ ∃ t ∈ db.tasks, t.id = id) ∧
    ((¬∃ t ∈ db.tasks, t.id = id) → (deleteTask ⟨id⟩ db).2 = db) ∧
    ((deleteCategory ⟨id⟩ db).1.success = true ↔ ∃ c ∈ db.categories, c.id = id) ∧
    ((¬∃ c ∈ db.categories, c.id = id) → (deleteCategory ⟨id⟩ db).2 = db) := by
  refine ⟨?_, ?_, ?_, ?_⟩
  · simp [deleteTask, List.length_pos_iff_exists_mem, List.mem_filter]
  · intro h
    have hfil : (db.tasks.filter fun tk => tk.id = id) = [] := by
      rw [List.filter_eq_nil_iff]
      intro t ht
      simpa using fun hh => h ⟨t, ht, hh⟩
    have hkeep : (db.tasks.filter fun tk => !decide (tk.id = id)) = db.tasks := by
      rw [List.filter_eq_self]
      intro t ht
      simpa using fun hh => h ⟨t, ht, hh⟩
    simp [deleteTask, hfil, hkeep]
  · simp [deleteCategory, List.length_pos_iff_exists_mem, List.mem_filter]
  · intro h
    have hfil : (db.categories.filter fun c => c.id = id) = [] := by
      rw [List.filter_eq_nil_iff]
      intro c hc
      simpa using fun hh => h ⟨c, hc, hh⟩
    have hkeep : (db.categories.filter fun c => !decide (c.id = id)) = db.categories := by
      rw [List.filter_eq_self]
      intro c hc
      simpa using fun hh => h ⟨c, hc, hh⟩
    simp [deleteCategory, hfil, hkeep]

/-- Witness for C8 at concrete inputs: id 5 exists in no table of `dbShip`,
id 1 names its one category. -/
theorem C8_delete_success_iff_witness :
    (deleteTask ⟨5⟩ dbShip).2 = dbShip ∧
    (deleteCategory ⟨5⟩ dbShip).2 = dbShip ∧
    (deleteCategory ⟨1⟩ dbShip).1.success = true ∧
    (deleteTask ⟨5⟩ dbShip).1.success = false :=
  ⟨(C8_delete_success_iff 5 dbShip).2.1 (by decide),
   (C8_delete_success_iff 5 dbShip).2.2.2 (by decide),
   (C8_delete_success_iff 1 dbShip).2.2.1.mpr ⟨workCat, by decide, rfl⟩,
   by
    have h := (C8_delete_success_iff 5 dbShip).1
    revert h
    decide⟩

/-- C5: a `createTask` whose `category_ids` hold an id that resolves to no
category (ids being unique in the categories table) fails with the
referential-integrity error and leaves every table exactly as it was — no
task row and no association row is inserted. -/
theorem C5_createTask_rejects_missing_category
    (input : CreateTaskInput) (db : DB) (now : Int) (newId : Nat) (cid : Nat)
    (hnd : (db.categories.map Category.id).Nodup)
    (hmem : cid ∈ input.category_ids.getD [])
    (habs : cid ∉ db.categories.map Category.id) :
    createTask input db now newId = (.error "One or more category IDs do not exist", db) := by
  have hlt := filter_contains_length_lt hnd hmem habs
  have hpos : 0 < (input.category_ids.getD []).length := List.length_pos_of_mem hmem
  unfold createTask
  rw [if_pos ⟨hpos, by omega⟩]

/-- Witness for C5: `dbShip` has only category 1, so `category_ids=[1,3]`
leaves the store untouched and errors. -/
theorem C5_createTask_rejects_missing_category_witness :
    createTask { title := "X", category_ids := some [1, 3] } dbShip 10 9 =
      (.error "One or more category IDs do not exist", dbShip) :=
  C5_createTask_rejects_missing_category _ dbShip 10 9 3 (by decide) (by decide) (by decide)

/-- C10: an `updateTask` whose supplied `category_ids` contain an id no
category carries errors out during the pre-write validation loop, so the
whole store — the task row with all its fields including `updated_at`, and
the task's association rows — is returned exactly unchanged. -/
theorem C10_updateTask_invalid_category_no_write
    (input : UpdateTaskInput) (db : DB) (now : Int) (cid : Nat)
    (hmem : cid ∈ input.category_ids.getD [])
    (habs : ∀ c ∈ db.categories, c.id ≠ cid) :
    (∃ msg, (updateTask input db now).1 = .error msg) ∧ (updateTask input db now).2 = db := by
  cases hfind : db.tasks.find? fun t => t.id = input.id with
  | none =>
      simp only [updateTask, hfind]
      exact ⟨⟨_, rfl⟩, trivial⟩
  | some t =>
      have hpos : 0 < (input.category_ids.getD []).length := List.length_pos_of_mem hmem
      have hfound : ((input.category_ids.getD []).find? fun c =>
          !(db.categories.any fun cc => cc.id = c)).isSome := by
        rw [List.find?_isSome]
        refine ⟨cid, hmem, ?_⟩
        simp only [Bool.not_eq_true', List.any_eq_false]
        intro c hc
        simpa using habs c hc
      obtain ⟨m, hm⟩ := Option.isSome_iff_exists.mp hfound
      have hmiss : firstMissingCategory db (input.category_ids.getD []) = some m := by
        unfold firstMissingCategory
        rw [if_pos hpos, hm]
      simp only [updateTask, hfind, hmiss]
      exact ⟨⟨_, rfl⟩, trivial⟩

/-- Witness for C10: category 5 does not exist in `dbShip`. -/
theorem C10_updateTask_invalid_category_no_write_witness :
    (∃ msg, (updateTask { id := 1, category_ids := some [1, 5] } dbShip 99).1 = .error msg) ∧
    (updateTask { id := 1, category_ids := some [1, 5] } dbShip 99).2 = dbShip :=
  C10_updateTask_invalid_category_no_write _ dbShip 99 5 (by decide) (by decide)

/-- C6: an `updateTask` omitting `category_ids` leaves the association table
exactly as it was, on every path; an `updateTask` supplying `category_ids`
(the empty list included) that succeeds replaces the task's association rows
in full — every old row of the task is deleted and exactly one fresh row per
supplied id is inserted, so `category_ids = []` removes them all. -/
theorem C6_updateTask_associations (input : UpdateTaskInput) (db : DB) (now : Int) :
    (input.category_ids = none →
      (updateTask input db now).2.taskCategories = db.taskCategories) ∧
    (∀ cids, input.category_ids = some cids → (updateTask input db now).1.isOk = true →
      (updateTask input db now).2.taskCategories =
        (db.taskCategories.filter fun a => a.task_id ≠ input.id) ++
          cids.map fun cid => (⟨input.id, cid⟩ : TaskCategory)) := by
  constructor
  · intro hnone
    cases hfind : db.tasks.find? fun t => t.id = input.id with
    | none => simp only [updateTask, hfind]
    | some t =>
        cases hmiss : firstMissingCategory db (input.category_ids.getD []) with
        | some m => simp only [updateTask, hfind, hmiss]
        | none =>
            rw [hnone] at hmiss
            simp only [updateTask, hfind, hnone, hmiss]
  · intro cids hsome hok
    cases hfind : db.tasks.find? fun t => t.id = input.id with
    | none =>
        simp only [updateTask, hfind, Except.isOk, Except.toBool] at hok
        exact Bool.noConfusion hok
    | some t =>
        cases hmiss : firstMissingCategory db (input.category_ids.getD []) with
        | some m =>
            simp only [updateTask, hfind, hmiss, Except.isOk, Except.toBool] at hok
            exact Bool.noConfusion hok
        | none =>
            rw [hsome] at hmiss
            simp only [updateTask, hfind, hsome, hmiss]

/-- Witness for C6: on `dbShip` (one association), an update that only sets
the description keeps the association, and one supplying `[]` deletes it. -/
theorem C6_updateTask_associations_witness :
    ((updateTask updDescInput dbShip 99).2.taskCategories = dbShip.taskCategories) ∧
    ((updateTask updEmptyCatsInput dbShip 99).2.taskCategories =
      (dbShip.taskCategories.filter fun a => a.task_id ≠ updEmptyCatsInput.id) ++
        ([] : List Nat).map fun cid => (⟨updEmptyCatsInput.id, cid⟩ : TaskCategory)) :=
  ⟨(C6_updateTask_associations updDescInput dbShip 99).1 rfl,
   (C6_updateTask_associations updEmptyCatsInput dbShip 99).2 [] rfl (by decide)⟩

/-- C7: a successful `updateTask` rewrites the found task so that each
column holds the request's value when the field was supplied (an explicit
null overwrites with null) and the stored value when it was absent, never
touches `created_at`, and always refreshes `updated_at` to the current
instant — also when no other field was supplied. -/
theorem C7_updateTask_field_frame
    (input : UpdateTaskInput) (db : DB) (now : Int) (t : Task)
    (hfind : db.tasks.find? (fun tk => tk.id = input.id) = some t)
    (hok : (updateTask input db now).1.isOk = true) :
    ∃ t2 ∈ (updateTask input db now).2.tasks, t2.id = input.id ∧
      t2.title = input.title.getD t.title ∧
      t2.description = input.description.getD t.description ∧
      t2.status = input.status.getD t.status ∧
      t2.due_date = input.due_date.getD t.due_date ∧
      t2.priority = input.priority.getD t.priority ∧
      t2.created_at = t.created_at ∧
      t2.updated_at = now := by
  cases hmiss : firstMissingCategory db (input.category_ids.getD []) with
  | some m =>
      simp only [updateTask, hfind, hmiss, Except.isOk, Except.toBool] at hok
      exact Bool.noConfusion hok
  | none =>
      have hid : t.id = input.id := by simpa using List.find?_some hfind
      have htasks : (updateTask input db now).2.tasks =
          db.tasks.map fun tk => if tk.id = input.id then applyPatch input now tk else tk := by
        cases hc : input.category_ids with
        | none =>
            rw [hc] at hmiss
            simp only [updateTask, hfind, hc, hmiss]
        | some cl =>
            rw [hc] at hmiss
            simp only [updateTask, hfind, hc, hmiss]
      refine ⟨applyPatch input now t, ?_, ?_⟩
      · rw [htasks]
        have hmem := List.mem_map_of_mem
          (fun tk => if tk.id = input.id then applyPatch input now tk else tk)
          (List.mem_of_find?_eq_some hfind)
        simpa [hid] using hmem
      · exact ⟨by simp [applyPatch, hid], rfl, rfl, rfl, rfl, rfl, rfl, rfl⟩

/-- Witness for C7: a description-only update of the "Ship report" task. -/
theorem C7_updateTask_field_frame_witness :
    ∃ t2 ∈ (updateTask updDescInput dbShip 99).2.tasks, t2.id = updDescInput.id ∧
      t2.title = updDescInput.title.getD shipTask.title ∧
      t2.description = updDescInput.description.getD shipTask.description ∧
      t2.status = updDescInput.status.getD shipTask.status ∧
      t2.due_date = updDescInput.due_date.getD shipTask.due_date ∧
      t2.priority = updDescInput.priority.getD shipTask.priority ∧
      t2.created_at = shipTask.created_at ∧
      t2.updated_at = 99 :=
  C7_updateTask_field_frame updDescInput dbShip 99 shipTask (by decide) (by decide)

/-- Pairwise priority bound for any `getTasks` call, through sorting,
pagination and grouping. -/
theorem getTasks_pairwise_priority (db : DB) (input : GetTasksInput)
    (P : TaskPriority → TaskPriority → Prop)
    (himp : ∀ a b : JoinRow, rowLE input.sort a b → P a.task.priority b.task.priority) :
    (getTasks input db).Pairwise fun a b => P a.priority b.priority := by
  have hsorted : (List.insertionSort (rowLE input.sort)
      (if hasConditions input.filter then (joinRows db).filter (rowMatches input.filter)
       else joinRows db)).Pairwise (rowLE input.sort) :=
    List.sorted_insertionSort _ _
  have hpaged : (applyLimit input.limit ((List.insertionSort (rowLE input.sort)
      (if hasConditions input.filter then (joinRows db).filter (rowMatches input.filter)
       else joinRows db)).drop input.offset)).Pairwise
      (fun a b => P a.task.priority b.task.priority) :=
    List.Pairwise.sublist ((applyLimit_sublist _ _).trans (List.drop_sublist _ _))
      (hsorted.imp fun h => himp _ _ h)
  exact foldl_upsert_pairwise P _ [] List.Pairwise.nil
    (fun a ha => absurd ha (List.not_mem_nil a)) hpaged

/-- C4: whatever the store, the filter and the pagination bounds,
`sort=priority_desc` returns the tasks grouped high, then medium, then low
(weakly decreasing enum rank, ties in arbitrary order), and
`sort=priority_asc` the exact reverse grouping — the comparison is the
enum's declared rank, not lexical order on the labels. -/
theorem C4_priority_order (db : DB) (f : TaskFilter) (lim : Option Nat) (off : Nat) :
    ((getTasks ⟨f, .priority_desc, lim, off⟩ db).Pairwise fun a b =>
      priorityRank b.priority ≤ priorityRank a.priority) ∧
    ((getTasks ⟨f, .priority_asc, lim, off⟩ db).Pairwise fun a b =>
      priorityRank a.priority ≤ priorityRank b.priority) :=
  ⟨getTasks_pairwise_priority db _ (fun p q => priorityRank q ≤ priorityRank p)
      (fun _ _ h => h),
   getTasks_pairwise_priority db _ (fun p q => priorityRank p ≤ priorityRank q)
      (fun _ _ h => h)⟩

/-- C3 (amended): `getTaskById` returns one category entry per association
row of the task, in table order; whenever the association table holds at
most one row per pair for that task — the invariant — the returned category
list carries no duplicate ids.  (Repeated calls trivially agree: the result
is a function of the store.) -/
theorem C3_getTaskById_nodup_amended (input : IdParam) (db : DB) (e : TaskWithCategories)
    (hnd : ((db.taskCategories.filter fun a => a.task_id = input.id).map
      TaskCategory.category_id).Nodup)
    (he : getTaskById input db = some e) :
    ((e.categories.map Category.id).Nodup) := by
  unfold getTaskById at he
  cases hfind : db.tasks.find? fun t => t.id = input.id with
  | none =>
      rw [hfind] at he
      exact absurd he (by simp)
  | some t =>
      rw [hfind] at he
      injection he with he2
      rw [← he2]
      exact filterMap_findCat_nodup db.categories _ hnd

/-- Witness for C3's amended theorem on the single-association store. -/
theorem C3_getTaskById_nodup_amended_witness :
    ((({ initEntry shipTask with categories := [workCat] } :
      TaskWithCategories).categories.map Category.id).Nodup) :=
  C3_getTaskById_nodup_amended ⟨1⟩ dbShip _ (by decide) (by decide)

/-- C1 (amended): `getTasks` paginates the joined rows, so a task's extra
category rows consume the limit/offset budget; but when every task carries
at most one category — one joined row per task — the returned ids are
exactly the sorted task list with `offset` distinct tasks skipped and
`limit` distinct tasks kept.  In particular five tasks created at distinct
instants with no categories, `created_at_asc, limit=2, offset=2`, return
exactly the 3rd and 4th tasks in order. -/
theorem C1_pagination_amended (db : DB) (s : TaskSort) (lim : Option Nat) (off : Nat)
    (hnd : (db.tasks.map Task.id).Nodup)
    (hsingle : ∀ t ∈ db.tasks,
      (db.taskCategories.filter fun a => a.task_id = t.id).length ≤ 1) :
    ((getTasks ⟨{}, s, lim, off⟩ db).map TaskWithCategories.id =
      (applyLimit lim ((List.insertionSort (taskLE s) db.tasks).drop off)).map Task.id) ∧
    getTasks paginationInput dbFivePlain = [initEntry (mkTask 3), initEntry (mkTask 4)] := by
  refine ⟨?_, by decide⟩
  have hjoin : joinRows db = db.tasks.map (singleRow db) := joinRows_eq_map_singleRow db hsingle
  have htask : (joinRows db).map JoinRow.task = db.tasks := by
    rw [hjoin, List.map_map,
      show (JoinRow.task ∘ singleRow db) = id from funext fun t => singleRow_task db t,
      List.map_id]
  show (aggregate (applyLimit lim
      ((List.insertionSort (rowLE s) (joinRows db)).drop off))).map TaskWithCategories.id = _
  have hndrows : (((joinRows db).map fun r => r.task.id).Nodup) := by
    have : (joinRows db).map (fun r => r.task.id) = db.tasks.map Task.id := by
      rw [show (fun r : JoinRow => r.task.id) = (Task.id ∘ JoinRow.task) from rfl,
        ← List.map_map, htask]
    rw [this]
    exact hnd
  have hperm : (List.insertionSort (rowLE s) (joinRows db)).Perm (joinRows db) :=
    List.perm_insertionSort _ _
  have hndsorted : (((List.insertionSort (rowLE s) (joinRows db)).map
      fun r => r.task.id).Nodup) :=
    ((hperm.map fun r => r.task.id).nodup_iff).mpr hndrows
  have hsub : (applyLimit lim ((List.insertionSort (rowLE s) (joinRows db)).drop off)).Sublist
      (List.insertionSort (rowLE s) (joinRows db)) :=
    (applyLimit_sublist _ _).trans (List.drop_sublist _ _)
  have hndpaged : (((applyLimit lim ((List.insertionSort (rowLE s)
      (joinRows db)).drop off)).map fun r => r.task.id).Nodup) :=
    hndsorted.sublist (hsub.map _)
  have hagg := foldl_upsert_nodup
    (applyLimit lim ((List.insertionSort (rowLE s) (joinRows db)).drop off)) []
    (fun e he => absurd he (List.not_mem_nil e)) hndpaged
  rw [show aggregate (applyLimit lim ((List.insertionSort (rowLE s) (joinRows db)).drop off)) =
      (applyLimit lim ((List.insertionSort (rowLE s) (joinRows db)).drop off)).foldl
        upsertRow [] from rfl, hagg, List.nil_append, List.map_map]
  rw [show (TaskWithCategories.id ∘ fun r : JoinRow => pushCat (initEntry r.task) r.cat) =
      (fun r : JoinRow => r.task.id) from funext fun r => by simp [pushCat_id, initEntry]]
  rw [show (fun r : JoinRow => r.task.id) = (Task.id ∘ JoinRow.task) from rfl, ← List.map_map,
    applyLimit_map, List.map_drop, insertionSort_map_task, htask]

/-- Witness for C1's amended theorem: the five-task store with no
categories. -/
theorem C1_pagination_amended_witness :
    ((getTasks ⟨{}, .created_at_asc, some 2, 2⟩ dbFivePlain).map TaskWithCategories.id =
      (applyLimit (some 2) ((List.insertionSort (taskLE .created_at_asc)
        dbFivePlain.tasks).drop 2)).map Task.id) ∧
    getTasks paginationInput dbFivePlain = [initEntry (mkTask 3), initEntry (mkTask 4)] :=
  C1_pagination_amended dbFivePlain .created_at_asc (some 2) 2 (by decide) (by decide)

/-- C2 (amended): filtering on a (non-zero) category id `C` returns a task
id exactly when some task row carries it and some association row links it
to `C` and a category row with id `C` exists — a task without the
association is excluded entirely, never returned with an empty list.  But
every category carried by a returned task is the matched category `C`
itself, not the task's full list: the `WHERE` condition prunes the joined
rows the other categories would have been aggregated from.  The concrete
Work / "Ship report" scenario holds as stated, that task's full list being
exactly `[Work]`. -/
theorem C2_category_filter_amended (db : DB) (C tid : Nat) (srt : TaskSort) (hC : C ≠ 0) :
    ((tid ∈ (getTasks ⟨{ category_id := some C }, srt, none, 0⟩ db).map
        TaskWithCategories.id ↔
      (∃ t ∈ db.tasks, t.id = tid ∧ ∃ a ∈ db.taskCategories,
        a.task_id = t.id ∧ a.category_id = C) ∧ ∃ c ∈ db.categories, c.id = C) ∧
    (∀ e ∈ getTasks ⟨{ category_id := some C }, srt, none, 0⟩ db,
      ∀ c ∈ e.categories, c.id = C) ∧
    getTasks workFilterInput dbShip =
      [{ initEntry shipTask with categories := [workCat] }]) := by
  have hcond : hasConditions { category_id := some C } = true := by
    simp [hasConditions, hC]
  have hgt : getTasks ⟨{ category_id := some C }, srt, none, 0⟩ db =
      aggregate (List.insertionSort (rowLE srt)
        ((joinRows db).filter (rowMatches { category_id := some C }))) := by
    simp only [getTasks, hcond, if_true, applyLimit, List.drop_zero]
  have hmatch_iff : ∀ r : JoinRow, (rowMatches { category_id := some C } r = true ↔
      ∃ cat, r.cat = some cat ∧ cat.id = C) := by
    intro r
    cases hcat : r.cat with
    | none => simp [rowMatches, hC, hcat]
    | some cat => simp [rowMatches, hC, hcat]
  refine ⟨?_, ?_, by decide⟩
  · rw [hgt,
      show aggregate (List.insertionSort (rowLE srt)
          ((joinRows db).filter (rowMatches { category_id := some C }))) =
        (List.insertionSort (rowLE srt)
          ((joinRows db).filter (rowMatches { category_id := some C }))).foldl
          upsertRow [] from rfl,
      mem_foldl_upsert_ids _ [] tid]
    simp only [List.map_nil, List.not_mem_nil, false_or]
    rw [List.Perm.mem_iff ((List.perm_insertionSort _ _).map _), List.mem_map]
    constructor
    · rintro ⟨r, hr, htid⟩
      obtain ⟨hrjoin, hrmatch⟩ := List.mem_filter.mp hr
      obtain ⟨cat, hcat, hcatC⟩ := (hmatch_iff r).mp hrmatch
      rw [joinRows, List.mem_flatMap] at hrjoin
      obtain ⟨t, ht, hrt⟩ := hrjoin
      cases hassoc : db.taskCategories.filter fun a => a.task_id = t.id with
      | nil =>
          rw [hassoc] at hrt
          simp only [List.isEmpty_nil, if_true, List.mem_singleton] at hrt
          rw [hrt] at hcat
          exact absurd hcat (by simp)
      | cons a0 rest =>
          rw [hassoc] at hrt
          have hrt2 : r ∈ (a0 :: rest).map fun x =>
              (⟨t, db.categories.find? fun c => c.id = x.category_id⟩ : JoinRow) := by
            simpa using hrt
          obtain ⟨a2, ha2, hra⟩ := List.mem_map.mp hrt2
          have hrcat : (db.categories.find? fun c => c.id = a2.category_id) = some cat := by
            rw [← hra] at hcat
            exact hcat
          have hcatid : cat.id = a2.category_id := by simpa using List.find?_some hrcat
          have hcmem : cat ∈ db.categories := List.mem_of_find?_eq_some hrcat
          have ha2fil : a2 ∈ db.taskCategories.filter fun a => a.task_id = t.id := by
            rw [hassoc]
            exact ha2
          obtain ⟨ha2mem, ha2task⟩ := List.mem_filter.mp ha2fil
          refine ⟨⟨t, ht, ?_, a2, ha2mem, by simpa using ha2task, ?_⟩, cat, hcmem, hcatC⟩
          · rw [← hra] at htid
            exact htid
          · rw [← hcatid, hcatC]
    · rintro ⟨⟨t, ht, htid, a, hamem, hatask, hacat⟩, c, hcmem, hcid⟩
      have hfindsome : ((db.categories.find? fun cc => cc.id = a.category_id)).isSome := by
        rw [List.find?_isSome]
        exact ⟨c, hcmem, by simp [hcid, hacat]⟩
      obtain ⟨cat, hcat⟩ := Option.isSome_iff_exists.mp hfindsome
      have hcatid : cat.id = a.category_id := by simpa using List.find?_some hcat
      have hafil : a ∈ db.taskCategories.filter fun x => x.task_id = t.id :=
        List.mem_filter.mpr ⟨hamem, by simpa using hatask⟩
      refine ⟨⟨t, db.categories.find? fun cc => cc.id = a.category_id⟩, ?_, htid⟩
      refine List.mem_filter.mpr ⟨?_, ?_⟩
      · rw [joinRows, List.mem_flatMap]
        refine ⟨t, ht, ?_⟩
        have hne : (db.taskCategories.filter fun x => x.task_id = t.id).isEmpty = false := by
          cases h2 : db.taskCategories.filter fun x => x.task_id = t.id with
          | nil =>
              rw [h2] at hafil
              exact absurd hafil (List.not_mem_nil a)
          | cons _ _ => rfl
        simp only [hne, Bool.false_eq_true, if_false, List.mem_map]
        exact ⟨a, hafil, rfl⟩
      · exact (hmatch_iff _).mpr ⟨cat, hcat, by rw [hcatid, hacat]⟩
  · intro e he c hc
    rw [hgt] at he
    have hsplit := foldl_upsert_cats
      (List.insertionSort (rowLE srt)
        ((joinRows db).filter (rowMatches { category_id := some C }))) [] e c he hc
    rcases hsplit with ⟨e0, he0, _⟩ | ⟨r, hr, hcat⟩
    · exact absurd he0 (List.not_mem_nil e0)
    · have hrfil : r ∈ (joinRows db).filter (rowMatches { category_id := some C }) :=
        (List.perm_insertionSort _ _).subset hr
      obtain ⟨cat, hcat2, hcatC⟩ := (hmatch_iff r).mp (List.mem_filter.mp hrfil).2
      rw [hcat] at hcat2
      injection hcat2 with h2
      rw [h2]
      exact hcatC

/-- Witness for C2's amended theorem on the scenario store, category id 1,
task id 1. -/
theorem C2_category_filter_amended_witness :
    ((1 ∈ (getTasks ⟨{ category_id := some 1 }, .created_at_desc, none, 0⟩ dbShip).map
        TaskWithCategories.id ↔
      (∃ t ∈ dbShip.tasks, t.id = 1 ∧ ∃ a ∈ dbShip.taskCategories,
        a.task_id = t.id ∧ a.category_id = 1) ∧ ∃ c ∈ dbShip.categories, c.id = 1) ∧
    (∀ e ∈ getTasks ⟨{ category_id := some 1 }, .created_at_desc, none, 0⟩ dbShip,
      ∀ c ∈ e.categories, c.id = 1) ∧
    getTasks workFilterInput dbShip =
      [{ initEntry shipTask with categories := [workCat] }]) :=
  C2_category_filter_amended dbShip 1 1 .created_at_desc (by decide)

end TodoApp
